import Mathlib

/-!
Verification of the senior-living community matching pipeline
(`src/streamlit_app.py`) against its natural-language specification.

The pipeline is shallowly embedded: a pandas DataFrame becomes a `Table`
(a record of column-presence flags plus a list of `Row`s, each row carrying
its original dataframe index `idx`); pandas cell values that may be NaN
become `Option String` (with `none` playing the role of NaN); the
"Monthly Fee" cell, which may hold a number, a free-text string or NaN,
becomes `FeeCell`.  The external geocoding service is a parameter
`g : String → Option Coord` (exceptions and no-match results both surface
as `none`, exactly as the code's bare `except` handlers fold them), and the
geodesic-distance library call is a parameter `geod : Coord → Coord → ℚ`.
Filters that access a possibly-absent column are `Except`-valued, mirroring
the pandas `KeyError` that the script's single `try/except` turns into an
error banner with no stored result.
-/

deriving instance DecidableEq for Except

namespace SeniorMatch

/-- A "Monthly Fee" cell of the spreadsheet: a number, a free-text string,
or an empty (NaN) cell. -/
inductive FeeCell where
  | num (q : ℚ)
  | text (s : String)
  | missing
deriving DecidableEq

/-- ASCII whitespace, the characters Python `str.strip` removes from the
cell values this pipeline sees. -/
def isPyWS (c : Char) : Bool :=
  c = ' ' ∨ c = '\t' ∨ c = '\n' ∨ c = '\r'

/-- Python `str.strip()`. -/
def trimStr (s : String) : String :=
  String.mk (((s.data.dropWhile isPyWS).reverse.dropWhile isPyWS).reverse)

/-- Python `str.lower()` (ASCII). -/
def lowerStr (s : String) : String :=
  String.mk (s.data.map Char.toLower)

/-- Split a character list at every occurrence of `sep`, like Python
`str.split(sep)`. -/
def splitOnChar (sep : Char) : List Char → List (List Char)
  | [] => [[]]
  | c :: t =>
    let r := splitOnChar sep t
    if c = sep then [] :: r
    else
      match r with
      | [] => [[c]]
      | h :: rt => (c :: h) :: rt

/-- The digits of `w` read as a natural number; `none` unless `w` is a
nonempty run of decimal digits. -/
def digitsToNat (w : List Char) : Option Nat :=
  if w.length ≠ 0 ∧ w.all Char.isDigit then
    some (w.foldl (fun a c => a * 10 + (c.toNat - 48)) 0)
  else
    none

/-- Embedding of Python `float(...)` / `pd.to_numeric` on the characters of
a decimal string: optional surrounding whitespace, optional sign, digits
with an optional fractional part.  "call for pricing" yields `none`. -/
def parseRatL (cs0 : List Char) : Option ℚ :=
  let cs := ((cs0.dropWhile isPyWS).reverse.dropWhile isPyWS).reverse
  let sb : Int × List Char :=
    match cs with
    | '-' :: t => (-1, t)
    | '+' :: t => (1, t)
    | _ => (1, cs)
  match splitOnChar '.' sb.2 with
  | [w] => (digitsToNat w).map (fun n => mkRat (sb.1 * n) 1)
  | [w, f] =>
    if w.length = 0 ∧ f.length = 0 then none
    else
      match (if w.length = 0 then some 0 else digitsToNat w),
            (if f.length = 0 then some 0 else digitsToNat f) with
      | some wn, some fn =>
        some (mkRat (sb.1 * (wn * 10 ^ f.length + fn)) (10 ^ f.length))
      | _, _ => none
  | _ => none

/-- Run `parseRatL` on the characters of a string. -/
def parseRatQ (s : String) : Option ℚ :=
  parseRatL s.data

/-- Pandas `pd.to_numeric(cell, errors="coerce")` viewed as an optional rational:
numbers pass through, numeric strings parse, everything else is NaN. -/
def toNumCell : FeeCell → Option ℚ
  | .num q => some q
  | .text s => parseRatQ s
  | .missing => none

/-- The coerced fee cell that `pd.to_numeric(..., errors="coerce")` writes
back into the "Monthly Fee" column. -/
def coerceCell (c : FeeCell) : FeeCell :=
  match toNumCell c with
  | some q => .num q
  | none => .missing

/-- One row of the community spreadsheet.  `idx` is the row's original
dataframe index; each `Option String` field is one cell (`none` = NaN);
`zipCell` is the postal-code cell, already numeric as the claims assume. -/
structure Row where
  idx : Nat
  typeOfService : Option String
  enhancedCell : Option String
  enrichedCell : Option String
  waitlistCell : Option String
  feeCell : FeeCell
  contractCell : Option String
  placementCell : Option String
  geocodeCell : Option String
  zipCell : Option Nat
deriving DecidableEq

/-- Which optional columns the uploaded spreadsheet actually has. -/
structure Cols where
  hasTOS : Bool
  hasEnhanced : Bool
  hasEnriched : Bool
  hasWaitlist : Bool
  hasFee : Bool
  hasContract : Bool
  hasPlacement : Bool
  hasGeocode : Bool
  hasZip : Bool
deriving DecidableEq

/-- A dataframe: column-presence flags plus the surviving rows in order. -/
structure Table where
  cols : Cols
  rows : List Row
deriving DecidableEq

/-- The client preferences the filter chain consumes
(`prefs.get("care_level")`, `prefs.get("enhanced")`, ...). -/
structure Prefs where
  careLevel : String
  enhanced : String
  enriched : String
  moveIn : String
  maxBudget : Option ℚ
deriving DecidableEq

/-- Does the character list `hay` start with `pat`? -/
def chStarts : List Char → List Char → Bool
  | _, [] => true
  | [], _ :: _ => false
  | h :: hs, p :: ps => h = p && chStarts hs ps

/-- Does the character list `hay` contain `pat` as a contiguous run? -/
def chContains (hay pat : List Char) : Bool :=
  match hay with
  | [] => pat.isEmpty
  | _ :: t => chStarts hay pat || chContains t pat

/-- Case-insensitive substring test, the embedding of
`Series.str.contains(pat, case=False)` on a non-null cell. -/
def containsCI (hay pat : String) : Bool :=
  chContains (hay.data.map Char.toLower) (pat.data.map Char.toLower)

/-- Care-level predicate: `df["Type of Service"].str.contains(lvl, na=False,
case=False)`; a NaN cell is `False` because of `na=False`. -/
def careOk (lvl : String) (r : Row) : Bool :=
  match r.typeOfService with
  | some s => containsCI s lvl
  | none => false

/-- Python `str(cell)` on a pandas cell: NaN prints as "nan". -/
def cellStr : Option String → String
  | none => "nan"
  | some s => s

/-- The test `df[col].astype(str).str.lower() == "yes"` on one cell. -/
def yesEq (c : Option String) : Bool :=
  lowerStr (cellStr c) == "yes"

/-- The allowed waitlist categories for a move-in window
(lines 169–175 of the script). -/
def allowedOf (m : String) : List String :=
  if m = "Immediate (0-1 months)" then ["Available", "Unconfirmed"]
  else if m = "Near-term (1-6 months)" then
    ["Available", "Unconfirmed", "1-2 months", "2-4 months", "4-6 months"]
  else []

/-- The test `df["Est. Waitlist Length"].isin(allowed)` on one cell; NaN is not a
member of any string list. -/
def waitOk (allowed : List String) (r : Row) : Bool :=
  match r.waitlistCell with
  | some s => allowed.contains s
  | none => false

/-- The budget mask `df["Monthly Fee"] <= b` on an already-coerced cell;
a NaN comparison is `False` in pandas. -/
def feeOk (b : ℚ) (r : Row) : Bool :=
  match r.feeCell with
  | .num q => decide (q ≤ b)
  | .text _ => false
  | .missing => false

/-- The in-place coercion `df["Monthly Fee"] = pd.to_numeric(...)` on a row. -/
def coerceFeeRow (r : Row) : Row :=
  { r with feeCell := coerceCell r.feeCell }

/-- The budget stage on the row list: coerce the fee column, then keep the
rows whose fee is ≤ `b` (NaN never passes). -/
def budgetRows (b : ℚ) (l : List Row) : List Row :=
  (l.map coerceFeeRow).filter (feeOk b)

/-- The pandas KeyError raised by `df[col]` when `col` is absent; the
script's single `except` turns it into an error banner and no result. -/
inductive PipeError where
  | keyError
deriving DecidableEq

/-- One filter stage: when `active`, require the column (`KeyError`
otherwise) and replace the rows by `f rows`; when inactive, do nothing. -/
def stageGen (active hasCol : Bool) (f : List Row → List Row) (t : Table) :
    Except PipeError Table :=
  if active then
    if hasCol then .ok ⟨t.cols, f t.rows⟩ else .error .keyError
  else .ok t

/-- Lines 151–154: the care-level filter, active unless the preference is
"Unknown", reads the mandatory "Type of Service" column. -/
def careStage (p : Prefs) (t : Table) : Except PipeError Table :=
  stageGen (p.careLevel != "Unknown") t.cols.hasTOS
    (List.filter (careOk p.careLevel)) t

/-- Lines 157–160: the Enhanced filter, active when the preference is
exactly "Yes". -/
def enhancedStage (p : Prefs) (t : Table) : Except PipeError Table :=
  stageGen (p.enhanced == "Yes") t.cols.hasEnhanced
    (List.filter (fun r => yesEq r.enhancedCell)) t

/-- Lines 163–166: the Enriched filter, symmetric to Enhanced. -/
def enrichedStage (p : Prefs) (t : Table) : Except PipeError Table :=
  stageGen (p.enriched == "Yes") t.cols.hasEnriched
    (List.filter (fun r => yesEq r.enrichedCell)) t

/-- Lines 169–180: the move-in/waitlist filter, active when the allowed
set is nonempty. -/
def waitlistStage (p : Prefs) (t : Table) : Except PipeError Table :=
  stageGen (!(allowedOf p.moveIn).isEmpty) t.cols.hasWaitlist
    (List.filter (waitOk (allowedOf p.moveIn))) t

/-- Python truthiness of `prefs.get("max_budget")`: absent or zero means
the budget filter is skipped. -/
def budgetActive (p : Prefs) : Option ℚ :=
  match p.maxBudget with
  | some b => if b = 0 then none else some b
  | none => none

/-- Lines 183–187: the budget filter; it first coerces the "Monthly Fee"
column in place and then keeps fees ≤ the budget. -/
def budgetStage (p : Prefs) (t : Table) : Except PipeError Table :=
  match budgetActive p with
  | some b => stageGen true t.cols.hasFee (budgetRows b) t
  | none => .ok t

/-- The whole filter chain of lines 149–187, in the script's stage order. -/
def filterChain (p : Prefs) (t : Table) : Except PipeError Table :=
  (careStage p t).bind fun t1 =>
    (enhancedStage p t1).bind fun t2 =>
      (enrichedStage p t2).bind fun t3 =>
        (waitlistStage p t3).bind fun t4 =>
          budgetStage p t4

/-- Python `str(row.get(col, ""))` on a possibly-absent column: the
default "" when the column is missing, "nan" for a NaN cell. -/
def getCell (has : Bool) (c : Option String) : String :=
  if has then cellStr c else ""

/-- Python `str(row.get(col, "")).strip().lower()`, the normalization the
priority classifier applies to both of its fields. -/
def normCell (has : Bool) (c : Option String) : String :=
  lowerStr (trimStr (getCell has c))

/-- Lines 191–200: the per-row priority classifier `assign_priority`.
`hasC`/`hasP` say whether the "Contract (w rate)?" and
"Work with Placement?" columns exist. -/
def assign_priority (hasC hasP : Bool) (r : Row) : Nat :=
  let contract := normCell hasC r.contractCell
  let placement := normCell hasP r.placementCell
  if ¬(contract = "no" ∨ contract = "nan" ∨ contract = "") then 1
  else if contract = "no" ∧ placement = "yes" then 2
  else 3

/-- A latitude/longitude pair. -/
abbrev Coord := ℚ × ℚ

/-- Lines 237–243: parse a stored "Geocode" cell.  It is used only when
the cell is a non-null string containing a comma whose two
comma-separated parts both parse as floats; any other shape falls through
to the postal-code fallback. -/
def parseGeocode : Option String → Option Coord
  | none => none
  | some s =>
    if s.data.contains ',' then
      match (splitOnChar ',' s.data).map parseRatL with
      | [some a, some b] => some (a, b)
      | _ => none
    else none

/-- Python `str.zfill(5)` on a digit string. -/
def zfill5 (s : String) : String :=
  if s.length ≥ 5 then s
  else String.mk (List.replicate (5 - s.length) '0') ++ s

/-- Line 249: the geocoding query built from a numeric postal code:
`f"{str(int(float(zip_code))).zfill(5)}, NY, USA"`. -/
def zipQuery (z : Nat) : String :=
  zfill5 (toString z) ++ ", NY, USA"

/-- Lines 236–256: resolve one community's coordinate.  Prefer the stored
"Geocode" cell (treated as absent when the column is missing); otherwise
geocode the padded postal code through the external adapter `g`; `none`
when neither yields a coordinate (failures of `g` are already folded into
`none`, as the bare `except` does). -/
def geocode_community (g : String → Option Coord) (hasGeo : Bool) (r : Row) :
    Option Coord :=
  match parseGeocode (if hasGeo then r.geocodeCell else none) with
  | some c => some c
  | none =>
    match r.zipCell with
    | some z => g (zipQuery z)
    | none => none

/-- Python `min` on a list of rationals; `none` on the empty list, where
`min([])` raises (and the surrounding `except` returns `None`). -/
def listMin : List ℚ → Option ℚ
  | [] => none
  | x :: xs => some (xs.foldl min x)

/-- Lines 261–268: `compute_distance` — `None` for an unresolved
community, otherwise the minimum over the client coordinates of the
geodesic distance `geod`. -/
def compute_distance (geod : Coord → Coord → ℚ) (cc : List Coord)
    (o : Option Coord) : Option ℚ :=
  match o with
  | none => none
  | some c => listMin (cc.map (geod c))

/-- Lines 214–225: resolve the client's preferred locations through the
adapter, falling back to the fixed Rochester coordinate when none
resolve. -/
def resolveClient (g : String → Option Coord) (locs : List String) :
    List Coord :=
  let l := locs.filterMap g
  if l.isEmpty then [((431566 : ℚ) / 10000, -(776088 : ℚ) / 10000)] else l

/-- A row of the processed results table: the source row plus the derived
`Priority_Level` and optional `Distance_miles`. -/
structure RRow where
  row : Row
  priority : Nat
  dist : Option ℚ
deriving DecidableEq

/-- Insert `a` into a sorted list, before the first element it is `le` to;
ties keep the earlier (already-present) element first, so the resulting
sort is stable. -/
def insertStable (le : RRow → RRow → Bool) (a : RRow) : List RRow → List RRow
  | [] => [a]
  | b :: bs => if le a b then a :: b :: bs else b :: insertStable le a bs

/-- Stable insertion sort, the embedding of a stable pandas
`sort_values`. -/
def ssort (le : RRow → RRow → Bool) : List RRow → List RRow
  | [] => []
  | a :: t => insertStable le a (ssort le t)

/-- The key of line 203: `Priority_Level` ascending. -/
def pLe (a b : RRow) : Bool :=
  decide (a.priority ≤ b.priority)

/-- Comparison of optional distances with null sorted last
(`na_position="last"`). -/
def distLe : Option ℚ → Option ℚ → Bool
  | some a, some b => decide (a ≤ b)
  | some _, none => true
  | none, some _ => false
  | none, none => true

/-- The key of line 282: lexicographic (`Priority_Level`,
`Distance_miles`) ascending with null distances last. -/
def keyLe (a b : RRow) : Bool :=
  if a.priority = b.priority then distLe a.dist b.dist
  else decide (a.priority ≤ b.priority)

/-- Distance comparison used by `nsmallest` on the non-null rows. -/
def dLe (a b : RRow) : Bool :=
  decide (a.dist.getD 0 ≤ b.dist.getD 0)

/-- The processed results table; `hasDistance` records whether the
`Distance_miles` column was created (i.e. a postal-code-like column was
found). -/
structure Ranked where
  hasDistance : Bool
  rows : List RRow
deriving DecidableEq

/-- Lines 190–283: everything after the filter chain.  Assign priorities,
sort by priority; when a postal-code-like column exists, resolve each
community's coordinate, compute its minimum distance to the client
coordinates and re-sort by (priority, distance, nulls last). -/
def processStage (g : String → Option Coord) (geod : Coord → Coord → ℚ)
    (locs : List String) (t : Table) : Ranked :=
  let cc := resolveClient g locs
  let pr := t.rows.map fun r =>
    RRow.mk r (assign_priority t.cols.hasContract t.cols.hasPlacement r) none
  let sorted := ssort pLe pr
  if t.cols.hasZip then
    let wd := sorted.map fun rr =>
      let d := compute_distance geod cc
        (geocode_community g t.cols.hasGeocode rr.row)
      { rr with dist := d }
    ⟨true, ssort keyLe wd⟩
  else ⟨false, sorted⟩

/-- One whole run of the "Process Communities" button: filter chain, then
priority/geo ranking; a `KeyError` anywhere aborts with no result. -/
def runPipeline (g : String → Option Coord) (geod : Coord → Coord → ℚ)
    (locs : List String) (p : Prefs) (t : Table) : Except PipeError Ranked :=
  (filterChain p t).map (processStage g geod locs)

/-- Is an `Except` a success? -/
def isOkE {α : Type} : Except PipeError α → Bool
  | .ok _ => true
  | .error _ => false

/-- Line 299, distance branch: `df.nsmallest(5, "Distance_miles")` — the
five rows of smallest non-null distance, ordered by distance, NaN rows
dropped, ties kept in row order (`keep="first"`). -/
def nsmallest5 (rs : List RRow) : List RRow :=
  (ssort dLe (rs.filter fun r => r.dist.isSome)).take 5

/-- Line 299: the shortlist — `nsmallest` by distance when the
`Distance_miles` column exists, otherwise the first five rows. -/
def top5F (R : Ranked) : List RRow :=
  if R.hasDistance then nsmallest5 R.rows else R.rows.take 5

/-- Modelled from the spec's words, for comparison with `top5F`: the
"first 5 records of the fully sorted table", sorted by (priority_tier,
distance_miles, nulls last) with stable ties. -/
def specShortlist (R : Ranked) : List RRow :=
  (ssort keyLe R.rows).take 5

/-- Outcome of one call to the external geocoding service: a hit, a
no-match, or a raised exception (timeout, rate limit, ...). -/
inductive GeoRes where
  | found (c : Coord)
  | notFound
  | raised
deriving DecidableEq

/-- Observable events of a run: an invocation of the external lookup with
its query, or the `time.sleep(1)` one-second blocking delay. -/
inductive Ev where
  | call (q : String)
  | sleep1
deriving DecidableEq

/-- Lines 214–222: the client-location geocoding loop, instrumented with
its event trace.  On a normal return (hit or no-match) the loop sleeps
one second after the call; when the call raises, the bare `except` skips
the `time.sleep(1)`. -/
def clientLoopEv (g : String → GeoRes) : List String → List Ev × List Coord
  | [] => ([], [])
  | q :: qs =>
    let rest := clientLoopEv g qs
    match g q with
    | .found c => (Ev.call q :: Ev.sleep1 :: rest.1, c :: rest.2)
    | .notFound => (Ev.call q :: Ev.sleep1 :: rest.1, rest.2)
    | .raised => (Ev.call q :: rest.1, rest.2)

/-- Lines 236–256 instrumented with an event trace: no external call when
the stored geocode parses; otherwise one call for the postal-code query,
followed by a sleep unless that call raised. -/
def geocodeCommunityEv (g : String → GeoRes) (hasGeo : Bool) (r : Row) :
    List Ev × Option Coord :=
  match parseGeocode (if hasGeo then r.geocodeCell else none) with
  | some c => ([], some c)
  | none =>
    match r.zipCell with
    | some z =>
      match g (zipQuery z) with
      | .found c => ([Ev.call (zipQuery z), Ev.sleep1], some c)
      | .notFound => ([Ev.call (zipQuery z), Ev.sleep1], none)
      | .raised => ([Ev.call (zipQuery z)], none)
    | none => ([], none)

/-- The full sequence of lookup/sleep events of one run: the client loop
followed by the per-community lookups in row order. -/
def runTraceEv (g : String → GeoRes) (locs : List String) (hasGeo : Bool)
    (rows : List Row) : List Ev :=
  (clientLoopEv g locs).1 ++ (rows.map fun r => (geocodeCommunityEv g hasGeo r).1).flatten

/-- Spacing automaton: the state is `true` when a call has happened with
no sleep since; a second call in that state is a spacing violation
(`none`).  Returns the final state otherwise. -/
def runSp : Bool → List Ev → Option Bool
  | s, [] => some s
  | _, Ev.sleep1 :: t => runSp false t
  | s, Ev.call _ :: t => if s then none else runSp true t

/-- A trace is well spaced when no two invocations occur without an
intervening one-second sleep. -/
def wellSpaced (t : List Ev) : Bool :=
  (runSp false t).isSome

/-! ### Sorting lemmas -/

theorem insertStable_perm (le : RRow → RRow → Bool) (a : RRow) (l : List RRow) :
    (insertStable le a l).Perm (a :: l) := by
  induction l with
  | nil => exact List.Perm.refl _
  | cons b bs ih =>
    rw [insertStable]
    by_cases h : le a b = true
    · rw [if_pos h]
    · rw [if_neg h]
      exact (ih.cons b).trans (List.Perm.swap a b bs)

theorem ssort_perm (le : RRow → RRow → Bool) (l : List RRow) :
    (ssort le l).Perm l := by
  induction l with
  | nil => exact List.Perm.refl _
  | cons a t ih => exact (insertStable_perm le a (ssort le t)).trans (ih.cons a)

theorem insertStable_pairwise (le : RRow → RRow → Bool)
    (htot : ∀ x y, le x y = true ∨ le y x = true)
    (htr : ∀ x y z, le x y = true → le y z = true → le x z = true)
    (a : RRow) (l : List RRow)
    (hl : l.Pairwise fun x y => le x y = true) :
    (insertStable le a l).Pairwise fun x y => le x y = true := by
  induction l with
  | nil => simp [insertStable]
  | cons b bs ih =>
    rw [insertStable]
    rcases List.pairwise_cons.mp hl with ⟨hb, hbs⟩
    by_cases h : le a b = true
    · rw [if_pos h]
      refine List.pairwise_cons.mpr ⟨?_, hl⟩
      intro x hx
      rcases List.mem_cons.mp hx with rfl | hx
      · exact h
      · exact htr a b x h (hb x hx)
    · rw [if_neg h]
      refine List.pairwise_cons.mpr ⟨?_, ih hbs⟩
      intro x hx
      have hx2 := (insertStable_perm le a bs).mem_iff.mp hx
      rcases List.mem_cons.mp hx2 with rfl | hx2
      · rcases htot x b with hh | hh
        · exact absurd hh h
        · exact hh
      · exact hb x hx2

theorem ssort_pairwise (le : RRow → RRow → Bool)
    (htot : ∀ x y, le x y = true ∨ le y x = true)
    (htr : ∀ x y z, le x y = true → le y z = true → le x z = true)
    (l : List RRow) :
    (ssort le l).Pairwise fun x y => le x y = true := by
  induction l with
  | nil => simp [ssort]
  | cons a t ih => exact insertStable_pairwise le htot htr a (ssort le t) ih

theorem pLe_total : ∀ x y : RRow, pLe x y = true ∨ pLe y x = true := by
  intro x y
  simp only [pLe, decide_eq_true_eq]
  omega

theorem pLe_trans :
    ∀ x y z : RRow, pLe x y = true → pLe y z = true → pLe x z = true := by
  intro x y z
  simp only [pLe, decide_eq_true_eq]
  omega

theorem distLe_total : ∀ x y : Option ℚ, distLe x y = true ∨ distLe y x = true := by
  intro x y
  cases x with
  | none =>
    cases y with
    | none => exact Or.inl rfl
    | some b => exact Or.inr rfl
  | some a =>
    cases y with
    | none => exact Or.inl rfl
    | some b => simpa [distLe] using le_total a b

theorem distLe_trans : ∀ x y z : Option ℚ,
    distLe x y = true → distLe y z = true → distLe x z = true := by
  intro x y z hxy hyz
  cases x with
  | none =>
    cases y with
    | none => exact hyz
    | some b => exact absurd hxy (by simp [distLe])
  | some a =>
    cases z with
    | none => rfl
    | some c =>
      cases y with
      | none => exact absurd hyz (by simp [distLe])
      | some b =>
        simp only [distLe, decide_eq_true_eq] at hxy hyz ⊢
        exact le_trans hxy hyz

theorem keyLe_total : ∀ x y : RRow, keyLe x y = true ∨ keyLe y x = true := by
  intro x y
  by_cases h : x.priority = y.priority
  · rw [keyLe, if_pos h, keyLe, if_pos h.symm]
    exact distLe_total _ _
  · rw [keyLe, if_neg h, keyLe, if_neg (Ne.symm h)]
    simp only [decide_eq_true_eq]
    omega

theorem keyLe_trans : ∀ x y z : RRow,
    keyLe x y = true → keyLe y z = true → keyLe x z = true := by
  intro x y z hxy hyz
  by_cases h1 : x.priority = y.priority
  · by_cases h2 : y.priority = z.priority
    · rw [keyLe, if_pos h1] at hxy
      rw [keyLe, if_pos h2] at hyz
      rw [keyLe, if_pos (h1.trans h2)]
      exact distLe_trans _ _ _ hxy hyz
    · rw [keyLe, if_pos h1] at hxy
      rw [keyLe, if_neg h2, decide_eq_true_eq] at hyz
      rw [keyLe, if_neg (h1 ▸ h2), decide_eq_true_eq]
      omega
  · by_cases h2 : y.priority = z.priority
    · rw [keyLe, if_neg h1, decide_eq_true_eq] at hxy
      rw [keyLe, if_neg (h2 ▸ h1), decide_eq_true_eq]
      omega
    · rw [keyLe, if_neg h1, decide_eq_true_eq] at hxy
      rw [keyLe, if_neg h2, decide_eq_true_eq] at hyz
      have h3 : x.priority ≠ z.priority := by omega
      rw [keyLe, if_neg h3, decide_eq_true_eq]
      omega

theorem dLe_total : ∀ x y : RRow, dLe x y = true ∨ dLe y x = true := by
  intro x y
  simp only [dLe, decide_eq_true_eq]
  exact le_total _ _

theorem dLe_trans :
    ∀ x y z : RRow, dLe x y = true → dLe y z = true → dLe x z = true := by
  intro x y z
  simp only [dLe, decide_eq_true_eq]
  exact le_trans

/-! ### Filter-stage lemmas -/

theorem stageGen_cases {active hasCol : Bool} {f : List Row → List Row}
    {t u : Table} (h : stageGen active hasCol f t = .ok u) :
    (active = false ∧ u = t) ∨
      (active = true ∧ hasCol = true ∧ u = ⟨t.cols, f t.rows⟩) := by
  cases active with
  | false =>
    rw [stageGen] at h
    simp only [Bool.false_eq_true, if_false] at h
    exact Or.inl ⟨rfl, (Except.ok.injEq _ _).mp h |>.symm⟩
  | true =>
    cases hasCol with
    | false => simp [stageGen] at h
    | true =>
      rw [stageGen] at h
      simp only [if_true] at h
      exact Or.inr ⟨rfl, rfl, (Except.ok.injEq _ _).mp h |>.symm⟩

theorem stageGen_cols {active hasCol : Bool} {f : List Row → List Row}
    {t u : Table} (h : stageGen active hasCol f t = .ok u) : u.cols = t.cols := by
  rcases stageGen_cases h with ⟨_, rfl⟩ | ⟨_, _, rfl⟩ <;> rfl

theorem stageGen_col_true {active hasCol : Bool} {f : List Row → List Row}
    {t u : Table} (h : stageGen active hasCol f t = .ok u)
    (ha : active = true) : hasCol = true := by
  rcases stageGen_cases h with ⟨hf, _⟩ | ⟨_, hc, _⟩
  · rw [ha] at hf; cases hf
  · exact hc

theorem stageGen_idx {active hasCol : Bool} {f : List Row → List Row}
    {t u : Table}
    (hf : ∀ l, ((f l).map Row.idx).Sublist (l.map Row.idx))
    (h : stageGen active hasCol f t = .ok u) :
    (u.rows.map Row.idx).Sublist (t.rows.map Row.idx) := by
  rcases stageGen_cases h with ⟨_, rfl⟩ | ⟨_, _, rfl⟩
  · exact List.Sublist.refl _
  · exact hf t.rows

theorem stageGen_of_col (active hasCol : Bool) (f : List Row → List Row)
    (t : Table) (hc : active = true → hasCol = true) :
    ∃ u, stageGen active hasCol f t = .ok u ∧ u.cols = t.cols := by
  cases active with
  | false => exact ⟨t, by rw [stageGen]; simp, rfl⟩
  | true =>
    rw [hc rfl]
    exact ⟨⟨t.cols, f t.rows⟩, by rw [stageGen]; simp, rfl⟩

/-- All rows of `l` satisfy the boolean predicate `pr`. -/
def sat (pr : Row → Bool) (l : List Row) : Prop :=
  ∀ r ∈ l, pr r = true

theorem sat_filter {pr q : Row → Bool} {l : List Row} (h : sat pr l) :
    sat pr (l.filter q) :=
  fun r hr => h r (List.mem_of_mem_filter hr)

theorem sat_of_filter (pr : Row → Bool) (l : List Row) :
    sat pr (l.filter pr) :=
  fun _ hr => (List.mem_filter.mp hr).2

theorem sat_map_coerce {pr : Row → Bool} {l : List Row}
    (hco : ∀ r, pr (coerceFeeRow r) = pr r) (h : sat pr l) :
    sat pr (l.map coerceFeeRow) := by
  intro r hr
  rcases List.mem_map.mp hr with ⟨r0, hr0, rfl⟩
  rw [hco]
  exact h r0 hr0

theorem sat_budgetRows {pr : Row → Bool} {b : ℚ} {l : List Row}
    (hco : ∀ r, pr (coerceFeeRow r) = pr r) (h : sat pr l) :
    sat pr (budgetRows b l) :=
  sat_filter (sat_map_coerce hco h)

theorem filter_of_sat {pr : Row → Bool} {l : List Row} (h : sat pr l) :
    l.filter pr = l :=
  List.filter_eq_self.mpr h

theorem coerceCell_idem (c : FeeCell) : coerceCell (coerceCell c) = coerceCell c := by
  cases hc : toNumCell c with
  | none =>
    have h : coerceCell c = .missing := by rw [coerceCell, hc]
    rw [h]
    rfl
  | some q =>
    have h : coerceCell c = .num q := by rw [coerceCell, hc]
    rw [h]
    rfl

theorem coerceFeeRow_idem (r : Row) :
    coerceFeeRow (coerceFeeRow r) = coerceFeeRow r := by
  simp [coerceFeeRow, coerceCell_idem]

theorem coerceFeeRow_idx (r : Row) : (coerceFeeRow r).idx = r.idx := rfl

theorem budgetRows_coerced {b : ℚ} {l : List Row} :
    ∀ r ∈ budgetRows b l, coerceFeeRow r = r := by
  intro r hr
  rcases List.mem_map.mp (List.mem_of_mem_filter hr) with ⟨r0, _, rfl⟩
  exact coerceFeeRow_idem r0

theorem map_coerce_of_fixed {l : List Row} (h : ∀ r ∈ l, coerceFeeRow r = r) :
    l.map coerceFeeRow = l := by
  induction l with
  | nil => rfl
  | cons a t ih =>
    rw [List.map_cons, h a (List.mem_cons_self a t),
      ih fun r hr => h r (List.mem_cons_of_mem a hr)]

theorem budgetRows_fix {b : ℚ} {l : List Row}
    (hfix : ∀ r ∈ l, coerceFeeRow r = r) (hsat : sat (feeOk b) l) :
    budgetRows b l = l := by
  rw [budgetRows, map_coerce_of_fixed hfix, filter_of_sat hsat]

theorem budgetRows_idx (b : ℚ) (l : List Row) :
    ((budgetRows b l).map Row.idx).Sublist (l.map Row.idx) := by
  have h1 : ((budgetRows b l).map Row.idx).Sublist ((l.map coerceFeeRow).map Row.idx) :=
    (List.filter_sublist _).map Row.idx
  have h2 : (l.map coerceFeeRow).map Row.idx = l.map Row.idx := by
    rw [List.map_map]
    rfl
  rwa [h2] at h1

theorem filter_idx (q : Row → Bool) (l : List Row) :
    ((l.filter q).map Row.idx).Sublist (l.map Row.idx) :=
  (List.filter_sublist _).map Row.idx

theorem filter_self_idem (q : Row → Bool) (l : List Row) :
    (l.filter q).filter q = l.filter q :=
  filter_of_sat (sat_of_filter q l)

theorem filterChain_destruct {p : Prefs} {t u : Table}
    (h : filterChain p t = .ok u) :
    ∃ t1 t2 t3 t4, careStage p t = .ok t1 ∧ enhancedStage p t1 = .ok t2 ∧
      enrichedStage p t2 = .ok t3 ∧ waitlistStage p t3 = .ok t4 ∧
      budgetStage p t4 = .ok u := by
  rw [filterChain] at h
  cases h1 : careStage p t with
  | error e => rw [h1] at h; simp only [Except.bind] at h; exact Except.noConfusion h
  | ok t1 =>
    rw [h1] at h
    simp only [Except.bind] at h
    cases h2 : enhancedStage p t1 with
    | error e => rw [h2] at h; simp only [Except.bind] at h; exact Except.noConfusion h
    | ok t2 =>
      rw [h2] at h
      simp only [Except.bind] at h
      cases h3 : enrichedStage p t2 with
      | error e => rw [h3] at h; simp only [Except.bind] at h; exact Except.noConfusion h
      | ok t3 =>
        rw [h3] at h
        simp only [Except.bind] at h
        cases h4 : waitlistStage p t3 with
        | error e => rw [h4] at h; simp only [Except.bind] at h; exact Except.noConfusion h
        | ok t4 =>
          rw [h4] at h
          simp only [Except.bind] at h
          exact ⟨t1, t2, t3, t4, rfl, h2, h3, h4, h⟩

theorem sat_stageGen {pr : Row → Bool} {active hasCol : Bool}
    {f : List Row → List Row} {t u : Table}
    (h : stageGen active hasCol f t = .ok u)
    (hpres : ∀ l, sat pr l → sat pr (f l))
    (hs : sat pr t.rows) : sat pr u.rows := by
  rcases stageGen_cases h with ⟨_, rfl⟩ | ⟨_, _, rfl⟩
  · exact hs
  · exact hpres t.rows hs

theorem stageGen_filter_out {q : Row → Bool} {active hasCol : Bool}
    {t u : Table}
    (h : stageGen active hasCol (List.filter q) t = .ok u)
    (ha : active = true) : sat q u.rows := by
  rcases stageGen_cases h with ⟨haf, rfl⟩ | ⟨_, _, rfl⟩
  · rw [ha] at haf; cases haf
  · exact sat_of_filter q t.rows

theorem stageGen_budget_out {b : ℚ} {active hasCol : Bool} {t u : Table}
    (h : stageGen active hasCol (budgetRows b) t = .ok u)
    (ha : active = true) : u.rows = budgetRows b t.rows := by
  rcases stageGen_cases h with ⟨haf, rfl⟩ | ⟨_, _, rfl⟩
  · rw [ha] at haf; cases haf
  · rfl

theorem stageGen_fix {active hasCol : Bool} {f : List Row → List Row}
    {u : Table} (hc : active = true → hasCol = true)
    (hfix : active = true → f u.rows = u.rows) :
    stageGen active hasCol f u = .ok u := by
  cases active with
  | false => rw [stageGen]; simp
  | true =>
    rw [stageGen, hc rfl]
    simp only [if_true]
    rw [hfix rfl]

theorem budgetStage_cases {p : Prefs} {t u : Table}
    (h : budgetStage p t = .ok u) :
    (budgetActive p = none ∧ u = t) ∨
      ∃ b, budgetActive p = some b ∧
        stageGen true t.cols.hasFee (budgetRows b) t = .ok u := by
  rw [budgetStage] at h
  cases hb : budgetActive p with
  | none =>
    rw [hb] at h
    exact Or.inl ⟨rfl, ((Except.ok.injEq _ _).mp h).symm⟩
  | some b =>
    rw [hb] at h
    exact Or.inr ⟨b, rfl, h⟩

theorem careOk_coerce (lvl : String) (r : Row) :
    careOk lvl (coerceFeeRow r) = careOk lvl r := rfl

theorem yesEq_enh_coerce (r : Row) :
    yesEq (coerceFeeRow r).enhancedCell = yesEq r.enhancedCell := rfl

theorem yesEq_enr_coerce (r : Row) :
    yesEq (coerceFeeRow r).enrichedCell = yesEq r.enrichedCell := rfl

theorem waitOk_coerce (a : List String) (r : Row) :
    waitOk a (coerceFeeRow r) = waitOk a r := rfl

theorem filterChain_props {p : Prefs} {t u : Table}
    (h : filterChain p t = .ok u) :
    u.cols = t.cols ∧ (u.rows.map Row.idx).Sublist (t.rows.map Row.idx) ∧
      filterChain p u = .ok u := by
  obtain ⟨t1, t2, t3, t4, h1, h2, h3, h4, h5⟩ := filterChain_destruct h
  have g1 : stageGen (p.careLevel != "Unknown") t.cols.hasTOS
      (List.filter (careOk p.careLevel)) t = .ok t1 := h1
  have g2 : stageGen (p.enhanced == "Yes") t1.cols.hasEnhanced
      (List.filter fun r => yesEq r.enhancedCell) t1 = .ok t2 := h2
  have g3 : stageGen (p.enriched == "Yes") t2.cols.hasEnriched
      (List.filter fun r => yesEq r.enrichedCell) t2 = .ok t3 := h3
  have g4 : stageGen (!(allowedOf p.moveIn).isEmpty) t3.cols.hasWaitlist
      (List.filter (waitOk (allowedOf p.moveIn))) t3 = .ok t4 := h4
  have c1 : t1.cols = t.cols := stageGen_cols g1
  have c2 : t2.cols = t1.cols := stageGen_cols g2
  have c3 : t3.cols = t2.cols := stageGen_cols g3
  have c4 : t4.cols = t3.cols := stageGen_cols g4
  have c14 : t4.cols = t.cols := by rw [c4, c3, c2, c1]
  have s1 := stageGen_idx (filter_idx (careOk p.careLevel)) g1
  have s2 := stageGen_idx (filter_idx fun r => yesEq r.enhancedCell) g2
  have s3 := stageGen_idx (filter_idx fun r => yesEq r.enrichedCell) g3
  have s4 := stageGen_idx (filter_idx (waitOk (allowedOf p.moveIn))) g4
  have s14 : (t4.rows.map Row.idx).Sublist (t.rows.map Row.idx) :=
    s4.trans (s3.trans (s2.trans s1))
  rcases budgetStage_cases h5 with ⟨hb, rfl⟩ | ⟨b, hb, g5⟩
  · -- budget filter inactive: the output is the waitlist-stage output
    refine ⟨c14, s14, ?_⟩
    have q1 : (p.careLevel != "Unknown") = true →
        sat (careOk p.careLevel) u.rows := fun ha =>
      sat_stageGen g4 (fun _ hl => sat_filter hl)
        (sat_stageGen g3 (fun _ hl => sat_filter hl)
          (sat_stageGen g2 (fun _ hl => sat_filter hl)
            (stageGen_filter_out g1 ha)))
    have q2 : (p.enhanced == "Yes") = true →
        sat (fun r => yesEq r.enhancedCell) u.rows := fun ha =>
      sat_stageGen g4 (fun _ hl => sat_filter hl)
        (sat_stageGen g3 (fun _ hl => sat_filter hl)
          (stageGen_filter_out g2 ha))
    have q3 : (p.enriched == "Yes") = true →
        sat (fun r => yesEq r.enrichedCell) u.rows := fun ha =>
      sat_stageGen g4 (fun _ hl => sat_filter hl) (stageGen_filter_out g3 ha)
    have q4 : (!(allowedOf p.moveIn).isEmpty) = true →
        sat (waitOk (allowedOf p.moveIn)) u.rows := fun ha =>
      stageGen_filter_out g4 ha
    have k1 : careStage p u = .ok u :=
      stageGen_fix (fun ha => by rw [c14]; exact stageGen_col_true g1 ha)
        (fun ha => filter_of_sat (q1 ha))
    have k2 : enhancedStage p u = .ok u :=
      stageGen_fix (fun ha => by rw [c4, c3, c2]; exact stageGen_col_true g2 ha)
        (fun ha => filter_of_sat (q2 ha))
    have k3 : enrichedStage p u = .ok u :=
      stageGen_fix (fun ha => by rw [c4, c3]; exact stageGen_col_true g3 ha)
        (fun ha => filter_of_sat (q3 ha))
    have k4 : waitlistStage p u = .ok u :=
      stageGen_fix (fun ha => by rw [c4]; exact stageGen_col_true g4 ha)
        (fun ha => filter_of_sat (q4 ha))
    have k5 : budgetStage p u = .ok u := by rw [budgetStage, hb]
    rw [filterChain, k1]
    simp only [Except.bind]
    rw [k2]
    simp only [Except.bind]
    rw [k3]
    simp only [Except.bind]
    rw [k4]
    simp only [Except.bind]
    exact k5
  · -- budget filter active: the output is the coerced-and-filtered t4
    have c5 : u.cols = t4.cols := stageGen_cols g5
    have cAll : u.cols = t.cols := by rw [c5, c14]
    have s5 := stageGen_idx (budgetRows_idx b) g5
    refine ⟨cAll, s5.trans s14, ?_⟩
    have urows : u.rows = budgetRows b t4.rows := stageGen_budget_out g5 rfl
    have q1 : (p.careLevel != "Unknown") = true →
        sat (careOk p.careLevel) u.rows := fun ha =>
      sat_stageGen g5 (fun _ hl => sat_budgetRows (fun _ => rfl) hl)
        (sat_stageGen g4 (fun _ hl => sat_filter hl)
          (sat_stageGen g3 (fun _ hl => sat_filter hl)
            (sat_stageGen g2 (fun _ hl => sat_filter hl)
              (stageGen_filter_out g1 ha))))
    have q2 : (p.enhanced == "Yes") = true →
        sat (fun r => yesEq r.enhancedCell) u.rows := fun ha =>
      sat_stageGen g5 (fun _ hl => sat_budgetRows (fun _ => rfl) hl)
        (sat_stageGen g4 (fun _ hl => sat_filter hl)
          (sat_stageGen g3 (fun _ hl => sat_filter hl)
            (stageGen_filter_out g2 ha)))
    have q3 : (p.enriched == "Yes") = true →
        sat (fun r => yesEq r.enrichedCell) u.rows := fun ha =>
      sat_stageGen g5 (fun _ hl => sat_budgetRows (fun _ => rfl) hl)
        (sat_stageGen g4 (fun _ hl => sat_filter hl)
          (stageGen_filter_out g3 ha))
    have q4 : (!(allowedOf p.moveIn).isEmpty) = true →
        sat (waitOk (allowedOf p.moveIn)) u.rows := fun ha =>
      sat_stageGen g5 (fun _ hl => sat_budgetRows (fun _ => rfl) hl)
        (stageGen_filter_out g4 ha)
    have fix5 : budgetRows b u.rows = u.rows := by
      rw [urows]
      exact budgetRows_fix budgetRows_coerced
        (sat_of_filter (feeOk b) (t4.rows.map coerceFeeRow))
    have k1 : careStage p u = .ok u :=
      stageGen_fix (fun ha => by rw [cAll]; exact stageGen_col_true g1 ha)
        (fun ha => filter_of_sat (q1 ha))
    have k2 : enhancedStage p u = .ok u :=
      stageGen_fix (fun ha => by rw [c5, c4, c3, c2]; exact stageGen_col_true g2 ha)
        (fun ha => filter_of_sat (q2 ha))
    have k3 : enrichedStage p u = .ok u :=
      stageGen_fix (fun ha => by rw [c5, c4, c3]; exact stageGen_col_true g3 ha)
        (fun ha => filter_of_sat (q3 ha))
    have k4 : waitlistStage p u = .ok u :=
      stageGen_fix (fun ha => by rw [c5, c4]; exact stageGen_col_true g4 ha)
        (fun ha => filter_of_sat (q4 ha))
    have k5 : budgetStage p u = .ok u := by
      rw [budgetStage, hb]
      exact stageGen_fix (fun _ => by rw [c5]; exact stageGen_col_true g5 rfl)
        (fun _ => fix5)
    rw [filterChain, k1]
    simp only [Except.bind]
    rw [k2]
    simp only [Except.bind]
    rw [k3]
    simp only [Except.bind]
    rw [k4]
    simp only [Except.bind]
    exact k5

/-! ### Minimum lemmas -/

theorem foldl_min_le_init (xs : List ℚ) (a : ℚ) : xs.foldl min a ≤ a := by
  induction xs generalizing a with
  | nil => exact le_refl a
  | cons x t ih => exact le_trans (ih (min a x)) (min_le_left a x)

theorem foldl_min_le_mem (xs : List ℚ) (a : ℚ) :
    ∀ x ∈ xs, xs.foldl min a ≤ x := by
  induction xs generalizing a with
  | nil => intro x hx; cases hx
  | cons y t ih =>
    intro x hx
    rcases List.mem_cons.mp hx with rfl | hx
    · exact le_trans (foldl_min_le_init t (min a x)) (min_le_right a x)
    · exact ih (min a y) x hx

theorem foldl_min_mem (xs : List ℚ) (a : ℚ) :
    xs.foldl min a = a ∨ xs.foldl min a ∈ xs := by
  induction xs generalizing a with
  | nil => exact Or.inl rfl
  | cons y t ih =>
    rcases ih (min a y) with h | h
    · rcases min_choice a y with hm | hm
      · exact Or.inl (by rw [List.foldl_cons, h, hm])
      · refine Or.inr (List.mem_cons.mpr (Or.inl ?_))
        rw [List.foldl_cons, h, hm]
    · exact Or.inr (List.mem_cons.mpr (Or.inr (by rw [List.foldl_cons]; exact h)))

theorem listMin_spec {l : List ℚ} {d : ℚ} (h : listMin l = some d) :
    (∀ x ∈ l, d ≤ x) ∧ d ∈ l := by
  cases l with
  | nil => cases h
  | cons x xs =>
    rw [listMin] at h
    have hd : d = xs.foldl min x := ((Option.some.injEq _ _).mp h).symm
    constructor
    · intro y hy
      rcases List.mem_cons.mp hy with rfl | hy
      · rw [hd]; exact foldl_min_le_init xs y
      · rw [hd]; exact foldl_min_le_mem xs x y hy
    · rcases foldl_min_mem xs x with hm | hm
      · rw [hd, hm]; exact List.mem_cons_self x xs
      · rw [hd]; exact List.mem_cons_of_mem x hm

/-! ### Trace lemmas -/

theorem runSp_append (t1 t2 : List Ev) : ∀ s,
    runSp s (t1 ++ t2) = (runSp s t1).bind fun s2 => runSp s2 t2 := by
  induction t1 with
  | nil => intro s; rfl
  | cons e t ih =>
    intro s
    cases e with
    | sleep1 =>
      rw [List.cons_append]
      simp only [runSp]
      exact ih false
    | call q =>
      rw [List.cons_append]
      cases s with
      | false =>
        simp only [runSp, Bool.false_eq_true, if_false]
        exact ih true
      | true => simp only [runSp, if_true]; rfl

theorem clientLoopEv_spaced (g : String → GeoRes)
    (hg : ∀ q, g q ≠ .raised) :
    ∀ locs, runSp false (clientLoopEv g locs).1 = some false := by
  intro locs
  induction locs with
  | nil => rfl
  | cons q qs ih =>
    cases hq : g q with
    | found c =>
      simp only [clientLoopEv, hq]
      simp only [runSp, Bool.false_eq_true, if_false]
      exact ih
    | notFound =>
      simp only [clientLoopEv, hq]
      simp only [runSp, Bool.false_eq_true, if_false]
      exact ih
    | raised => exact absurd hq (hg q)

theorem geocodeCommunityEv_spaced (g : String → GeoRes)
    (hg : ∀ q, g q ≠ .raised) (hasGeo : Bool) (r : Row) :
    runSp false (geocodeCommunityEv g hasGeo r).1 = some false := by
  cases hpg : parseGeocode (if hasGeo then r.geocodeCell else none) with
  | some c => simp only [geocodeCommunityEv, hpg]; rfl
  | none =>
    cases hz : r.zipCell with
    | none => simp only [geocodeCommunityEv, hpg, hz]; rfl
    | some z =>
      cases hq : g (zipQuery z) with
      | found c => simp only [geocodeCommunityEv, hpg, hz, hq]; rfl
      | notFound => simp only [geocodeCommunityEv, hpg, hz, hq]; rfl
      | raised => exact absurd hq (hg _)

theorem runSp_flatten (ts : List (List Ev))
    (h : ∀ tr ∈ ts, runSp false tr = some false) :
    runSp false ts.flatten = some false := by
  induction ts with
  | nil => rfl
  | cons a l ih =>
    rw [List.flatten_cons, runSp_append, h a (List.mem_cons_self a l)]
    exact ih fun tr htr => h tr (List.mem_cons_of_mem a htr)

/-! ### Sorted-prefix lemma -/

theorem sorted_take_drop {le : RRow → RRow → Bool} {l : List RRow}
    (hp : l.Pairwise fun x y => le x y = true) {n : Nat} {a b : RRow}
    (ha : a ∈ l.take n) (hb : b ∈ l.drop n) : le a b = true := by
  have heq := List.take_append_drop n l
  rw [← heq] at hp
  rcases List.pairwise_append.mp hp with ⟨_, _, hcross⟩
  exact hcross a ha b hb

theorem feeOk_coerce_iff (b : ℚ) (r : Row) :
    feeOk b (coerceFeeRow r) = true ↔
      ∃ q, toNumCell r.feeCell = some q ∧ q ≤ b := by
  cases hc : toNumCell r.feeCell with
  | none =>
    have hm : (coerceFeeRow r).feeCell = .missing := by
      rw [coerceFeeRow]
      simp only
      rw [coerceCell, hc]
    constructor
    · intro hf
      rw [feeOk, hm] at hf
      cases hf
    · rintro ⟨q, hq, -⟩
      cases hq
  | some q =>
    have hm : (coerceFeeRow r).feeCell = .num q := by
      rw [coerceFeeRow]
      simp only
      rw [coerceCell, hc]
    constructor
    · intro hf
      rw [feeOk, hm, decide_eq_true_eq] at hf
      exact ⟨q, rfl, hf⟩
    · rintro ⟨q2, hq2, hle⟩
      have hqq : q = q2 := (Option.some.injEq _ _).mp hq2
      rw [feeOk, hm, decide_eq_true_eq, hqq]
      exact hle

/-! ### Claim C2 -/

/-- C2 (amended): `assign_priority` always returns one of 1, 2, 3, and
tier 1 holds exactly when the normalized contract value is outside
{"no","nan",""}; but tier 2 requires the normalized contract value to be
exactly "no" — a contract cell that normalizes to "nan" or "" falls to
tier 3 even when the placement field is "yes". -/
theorem C2_priority_tiers (hasC hasP : Bool) (r : Row) :
    (assign_priority hasC hasP r = 1 ∨ assign_priority hasC hasP r = 2 ∨
      assign_priority hasC hasP r = 3) ∧
    (assign_priority hasC hasP r = 2 ↔
      (normCell hasC r.contractCell = "no" ∧
        normCell hasP r.placementCell = "yes")) ∧
    (assign_priority hasC hasP r = 1 ↔
      ¬(normCell hasC r.contractCell = "no" ∨
        normCell hasC r.contractCell = "nan" ∨
        normCell hasC r.contractCell = "")) := by
  rcases Decidable.em (normCell hasC r.contractCell = "no" ∨
      normCell hasC r.contractCell = "nan" ∨
      normCell hasC r.contractCell = "") with hOr | hOr
  · rcases Decidable.em (normCell hasC r.contractCell = "no" ∧
        normCell hasP r.placementCell = "yes") with hAnd | hAnd
    · have hv : assign_priority hasC hasP r = 2 := by
        simp only [assign_priority]
        rw [if_neg (not_not_intro hOr), if_pos hAnd]
      rw [hv]
      exact ⟨Or.inr (Or.inl rfl), ⟨fun _ => hAnd, fun _ => rfl⟩,
        ⟨fun h => absurd h (by omega), fun hn => absurd hOr hn⟩⟩
    · have hv : assign_priority hasC hasP r = 3 := by
        simp only [assign_priority]
        rw [if_neg (not_not_intro hOr), if_neg hAnd]
      rw [hv]
      exact ⟨Or.inr (Or.inr rfl), ⟨fun h => absurd h (by omega),
        fun hA => absurd hA hAnd⟩,
        ⟨fun h => absurd h (by omega), fun hn => absurd hOr hn⟩⟩
  · have hv : assign_priority hasC hasP r = 1 := by
      simp only [assign_priority]
      rw [if_pos hOr]
    rw [hv]
    exact ⟨Or.inl rfl, ⟨fun h => absurd h (by omega),
      fun hA => absurd (Or.inl hA.1) hOr⟩, ⟨fun _ => hOr, fun _ => rfl⟩⟩

/-- A row whose contract cell is the empty string while the placement
cell says "Yes". -/
def rowC2 : Row :=
  ⟨0, none, none, none, none, .missing, some "", some "Yes", none, none⟩

/-- C2 counterexample: the claim says a row whose contract value is one of
the no-contract values "" (or "nan") and whose placement field equals
"yes" gets tier 2; the code returns tier 3 for an empty contract value
with placement "Yes", because the tier-2 branch tests `contract == "no"`
only. -/
theorem C2_priority_counterexample :
    normCell true rowC2.contractCell = "" ∧
    normCell true rowC2.placementCell = "yes" ∧
    assign_priority true true rowC2 = 3 := by decide

/-! ### Claim C10 -/

/-- C10: when the care-level filter is active, every row whose
"Type of Service" cell is NaN is dropped (because of `na=False`), and the
stage succeeds rather than erroring. -/
theorem C10_care_excludes_missing (p : Prefs) (t : Table)
    (h1 : p.careLevel ≠ "Unknown") (h2 : t.cols.hasTOS = true) :
    careStage p t = .ok ⟨t.cols, t.rows.filter (careOk p.careLevel)⟩ ∧
    ∀ r ∈ t.rows, r.typeOfService = none →
      ¬ r ∈ t.rows.filter (careOk p.careLevel) := by
  have ha : (p.careLevel != "Unknown") = true := bne_iff_ne.mpr h1
  constructor
  · rw [careStage, stageGen, ha, h2]
    simp
  · intro r hr hnone hmem
    have hq := (List.mem_filter.mp hmem).2
    rw [careOk, hnone] at hq
    cases hq

/-- Concrete instance for C10. -/
def tblC10 : Table :=
  ⟨⟨true, false, false, false, false, false, false, false, false⟩,
    [⟨0, none, none, none, none, .missing, none, none, none, none⟩,
     ⟨1, some "Assisted Living", none, none, none, .missing, none, none, none, none⟩]⟩

/-- Concrete preferences for C10. -/
def prefsC10 : Prefs := ⟨"Assisted Living", "No", "No", "later", none⟩

/-- Witness for C10 at a concrete table: a NaN "Type of Service" row is
excluded without an error. -/
theorem C10_witness :
    prefsC10.careLevel ≠ "Unknown" ∧ tblC10.cols.hasTOS = true ∧
    (careStage prefsC10 tblC10 =
      .ok ⟨tblC10.cols, tblC10.rows.filter (careOk prefsC10.careLevel)⟩ ∧
    ∀ r ∈ tblC10.rows, r.typeOfService = none →
      ¬ r ∈ tblC10.rows.filter (careOk prefsC10.careLevel)) :=
  ⟨by decide, by decide,
    C10_care_excludes_missing prefsC10 tblC10 (by decide) (by decide)⟩

/-! ### Claim C6 -/

/-- C6: with a (truthy) `max_budget` set and the "Monthly Fee" column
present, the budget stage coerces the fee column and keeps exactly the
rows whose fee parses as a number ≤ the budget; a missing or
non-parseable fee is excluded, never auto-passed. -/
theorem C6_budget_filter (p : Prefs) (t : Table) (b : ℚ)
    (hb : p.maxBudget = some b) (hb0 : b ≠ 0) (hc : t.cols.hasFee = true) :
    budgetStage p t = .ok ⟨t.cols, budgetRows b t.rows⟩ ∧
    (∀ rr, rr ∈ budgetRows b t.rows ↔
      ∃ r ∈ t.rows, rr = coerceFeeRow r ∧
        ∃ q, toNumCell r.feeCell = some q ∧ q ≤ b) ∧
    (∀ r ∈ t.rows, toNumCell r.feeCell = none →
      ¬ coerceFeeRow r ∈ budgetRows b t.rows) := by
  have hba : budgetActive p = some b := by
    rw [budgetActive, hb]
    simp [hb0]
  refine ⟨?_, ?_, ?_⟩
  · have hbs : budgetStage p t = stageGen true t.cols.hasFee (budgetRows b) t := by
      rw [budgetStage, hba]
    rw [hbs, stageGen, hc]
    simp
  · intro rr
    constructor
    · intro hm
      rcases List.mem_filter.mp hm with ⟨hmap, hok⟩
      rcases List.mem_map.mp hmap with ⟨r, hr, rfl⟩
      rcases (feeOk_coerce_iff b r).mp hok with ⟨q, hq, hle⟩
      exact ⟨r, hr, rfl, q, hq, hle⟩
    · rintro ⟨r, hr, rfl, q, hq, hle⟩
      exact List.mem_filter.mpr ⟨List.mem_map_of_mem coerceFeeRow hr,
        (feeOk_coerce_iff b r).mpr ⟨q, hq, hle⟩⟩
  · intro r hr hnone hmem
    have hok := (List.mem_filter.mp hmem).2
    rcases (feeOk_coerce_iff b r).mp hok with ⟨q, hq, -⟩
    rw [hnone] at hq
    cases hq

/-- Concrete instance for C6: a row with fee "call for pricing" and
budget 3000. -/
def tblC6 : Table :=
  ⟨⟨true, false, false, false, true, false, false, false, false⟩,
    [⟨0, some "Assisted Living", none, none, none, .text "call for pricing",
      none, none, none, none⟩,
     ⟨1, some "Assisted Living", none, none, none, .text "2500",
      none, none, none, none⟩]⟩

/-- Concrete preferences for C6. -/
def prefsC6 : Prefs := ⟨"Unknown", "No", "No", "later", some 3000⟩

/-- Witness for C6: with budget 3000, the "call for pricing" row is
excluded while the 2500 row survives. -/
theorem C6_witness :
    prefsC6.maxBudget = some 3000 ∧ (3000 : ℚ) ≠ 0 ∧
      tblC6.cols.hasFee = true ∧
    budgetStage prefsC6 tblC6 = .ok ⟨tblC6.cols, budgetRows 3000 tblC6.rows⟩ ∧
    budgetRows 3000 tblC6.rows =
      [⟨1, some "Assisted Living", none, none, none, .num 2500,
        none, none, none, none⟩] :=
  ⟨rfl, by decide, rfl,
    (C6_budget_filter prefsC6 tblC6 3000 rfl (by decide) rfl).1, by decide⟩

/-! ### Claim C8 -/

/-- C8: for a resolved community coordinate and a nonempty client
coordinate list, `compute_distance` returns exactly the minimum of the
geodesic distances to the client coordinates. -/
theorem C8_min_distance (geod : Coord → Coord → ℚ) (cc : List Coord)
    (c : Coord) (h : cc ≠ []) :
    ∃ d, compute_distance geod cc (some c) = some d ∧
      (∀ x ∈ cc, d ≤ geod c x) ∧ ∃ x ∈ cc, d = geod c x := by
  cases cc with
  | nil => exact absurd rfl h
  | cons x xs =>
    have hsp := listMin_spec (l := (x :: xs).map (geod c))
      (d := (xs.map (geod c)).foldl min (geod c x)) rfl
    refine ⟨(xs.map (geod c)).foldl min (geod c x), rfl, ?_, ?_⟩
    · intro y hy
      exact hsp.1 (geod c y) (List.mem_map_of_mem (geod c) hy)
    · rcases List.mem_map.mp hsp.2 with ⟨y, hy, hyd⟩
      exact ⟨y, hy, hyd.symm⟩

/-- Taxicab stand-in for the abstract geodesic function, used only to
instantiate witnesses. -/
def geodTaxi : Coord → Coord → ℚ := fun a b => |a.1 - b.1| + |a.2 - b.2|

/-- The spec's example client coordinates. -/
def ccC8 : List Coord :=
  [((4315 : ℚ) / 100, -(776 : ℚ) / 10), ((4305 : ℚ) / 100, -(7745 : ℚ) / 100)]

/-- Witness for C8 at the spec's example coordinates: the computed
distance is the minimum over the two client coordinates. -/
theorem C8_witness :
    ccC8 ≠ [] ∧
    ∃ d, compute_distance geodTaxi ccC8
        (some ((431 : ℚ) / 10, -(7750 : ℚ) / 100)) = some d ∧
      (∀ x ∈ ccC8, d ≤ geodTaxi ((431 : ℚ) / 10, -(7750 : ℚ) / 100) x) ∧
      ∃ x ∈ ccC8, d = geodTaxi ((431 : ℚ) / 10, -(7750 : ℚ) / 100) x :=
  ⟨by decide, C8_min_distance geodTaxi ccC8 _ (by decide)⟩

/-! ### Claim C4 -/

/-- C4 (amended): a dataset lacking "Type of Service" makes the run fail
with an error and no result — but only when the client's care_level
preference differs from "Unknown"; with care_level "Unknown" the column
is never consulted and the run can complete. -/
theorem C4_missing_service_column (g : String → Option Coord)
    (geod : Coord → Coord → ℚ) (locs : List String) (p : Prefs) (t : Table)
    (h1 : t.cols.hasTOS = false) (h2 : p.careLevel ≠ "Unknown") :
    runPipeline g geod locs p t = .error .keyError := by
  have ha : (p.careLevel != "Unknown") = true := bne_iff_ne.mpr h2
  have hcs : careStage p t = .error .keyError := by
    rw [careStage, stageGen, ha, h1]
    simp
  rw [runPipeline, filterChain, hcs]
  rfl

/-- Table lacking every column, with a single blank row. -/
def tblNoCols : Table :=
  ⟨⟨false, false, false, false, false, false, false, false, false⟩,
    [⟨0, none, none, none, none, .missing, none, none, none, none⟩]⟩

/-- Witness for C4 at a concrete dataset and preference set. -/
theorem C4_witness :
    tblNoCols.cols.hasTOS = false ∧
    runPipeline (fun _ => none) (fun _ _ => 0) ["Rochester, NY"]
      ⟨"Assisted Living", "No", "No", "later", none⟩ tblNoCols =
      .error .keyError :=
  ⟨rfl, C4_missing_service_column (fun _ => none) (fun _ _ => 0)
    ["Rochester, NY"] ⟨"Assisted Living", "No", "No", "later", none⟩
    tblNoCols rfl (by decide)⟩

/-- C4 counterexample: the claim says the failure is fatal regardless of
the care_level preference; but with care_level "Unknown" the missing
"Type of Service" column is never accessed and the run completes with a
result. -/
theorem C4_counterexample :
    tblNoCols.cols.hasTOS = false ∧
    isOkE (runPipeline (fun _ => none) (fun _ _ => 0) ["Rochester, NY"]
      ⟨"Unknown", "No", "No", "later", none⟩ tblNoCols) = true := by decide

/-! ### Claim C3 -/

/-- C3 (amended): the run completes whenever each *active* filter has its
column: "Contract (w rate)?", "Work with Placement?", "Geocode" and the
postal-code column may be absent unconditionally (no hypothesis about
them below); but "Enhanced", "Enriched" and "Est. Waitlist Length" must
be present when the corresponding preference activates their filter,
otherwise the run aborts (see the counterexample). -/
theorem C3_optional_columns (g : String → Option Coord)
    (geod : Coord → Coord → ℚ) (locs : List String) (p : Prefs) (t : Table)
    (h1 : p.careLevel ≠ "Unknown" → t.cols.hasTOS = true)
    (h2 : p.enhanced = "Yes" → t.cols.hasEnhanced = true)
    (h3 : p.enriched = "Yes" → t.cols.hasEnriched = true)
    (h4 : allowedOf p.moveIn ≠ [] → t.cols.hasWaitlist = true)
    (h5 : budgetActive p ≠ none → t.cols.hasFee = true) :
    isOkE (runPipeline g geod locs p t) = true := by
  obtain ⟨t1, k1, c1⟩ := stageGen_of_col (p.careLevel != "Unknown")
    t.cols.hasTOS (List.filter (careOk p.careLevel)) t
    (fun ha => h1 (bne_iff_ne.mp ha))
  obtain ⟨t2, k2, c2⟩ := stageGen_of_col (p.enhanced == "Yes")
    t1.cols.hasEnhanced (List.filter fun r => yesEq r.enhancedCell) t1
    (fun ha => by rw [c1]; exact h2 (by simpa using ha))
  obtain ⟨t3, k3, c3⟩ := stageGen_of_col (p.enriched == "Yes")
    t2.cols.hasEnriched (List.filter fun r => yesEq r.enrichedCell) t2
    (fun ha => by rw [c2, c1]; exact h3 (by simpa using ha))
  obtain ⟨t4, k4, c4⟩ := stageGen_of_col (!(allowedOf p.moveIn).isEmpty)
    t3.cols.hasWaitlist (List.filter (waitOk (allowedOf p.moveIn))) t3
    (fun ha => by
      rw [c3, c2, c1]
      refine h4 fun hnil => ?_
      rw [hnil] at ha
      simp at ha)
  have k1c : careStage p t = .ok t1 := k1
  have k2c : enhancedStage p t1 = .ok t2 := k2
  have k3c : enrichedStage p t2 = .ok t3 := k3
  have k4c : waitlistStage p t3 = .ok t4 := k4
  cases hbb : budgetActive p with
  | none =>
    have k5c : budgetStage p t4 = .ok t4 := by rw [budgetStage, hbb]
    rw [runPipeline, filterChain, k1c]
    simp only [Except.bind]
    rw [k2c]
    simp only [Except.bind]
    rw [k3c]
    simp only [Except.bind]
    rw [k4c]
    simp only [Except.bind]
    rw [k5c]
    rfl
  | some b =>
    obtain ⟨t5, k5, c5⟩ := stageGen_of_col true t4.cols.hasFee
      (budgetRows b) t4
      (fun _ => by
        rw [c4, c3, c2, c1]
        exact h5 (by rw [hbb]; simp))
    have k5c : budgetStage p t4 = .ok t5 := by
      rw [budgetStage, hbb]
      exact k5
    rw [runPipeline, filterChain, k1c]
    simp only [Except.bind]
    rw [k2c]
    simp only [Except.bind]
    rw [k3c]
    simp only [Except.bind]
    rw [k4c]
    simp only [Except.bind]
    rw [k5c]
    rfl

/-- Witness table for C3: has the filter columns that are active, lacks
"Contract (w rate)?", "Work with Placement?", "Geocode" and any postal
column. -/
def tblC3 : Table :=
  ⟨⟨true, true, false, false, true, false, false, false, false⟩,
    [⟨0, some "Assisted Living", some "yes", none, none, .text "2500",
      none, none, none, none⟩]⟩

/-- Witness preferences for C3. -/
def prefsC3 : Prefs := ⟨"Assisted Living", "Yes", "No", "later", some 3000⟩

/-- Witness for C3: the run completes although the contract, placement,
geocode and postal columns are all absent. -/
theorem C3_witness :
    tblC3.cols.hasContract = false ∧ tblC3.cols.hasPlacement = false ∧
    tblC3.cols.hasGeocode = false ∧ tblC3.cols.hasZip = false ∧
    isOkE (runPipeline (fun _ => none) (fun _ _ => 0) ["Webster, NY"]
      prefsC3 tblC3) = true :=
  ⟨rfl, rfl, rfl, rfl,
    C3_optional_columns (fun _ => none) (fun _ _ => 0) ["Webster, NY"]
      prefsC3 tblC3 (fun _ => rfl) (fun _ => rfl)
      (fun h => absurd h (by decide : ¬(prefsC3.enriched = "Yes")))
      (fun h => absurd (by decide : allowedOf prefsC3.moveIn = []) h)
      (fun _ => rfl)⟩

/-- Table lacking the "Enhanced" column. -/
def tblC3NoEnh : Table :=
  ⟨⟨true, false, false, false, false, false, false, false, false⟩,
    [⟨0, some "Assisted Living", none, none, none, .missing,
      none, none, none, none⟩]⟩

/-- C3 counterexample: the claim says the absence of the optional
"Enhanced" column never aborts the run; but with preference
enhanced = "Yes" the code evaluates `df["Enhanced"]`, raising KeyError,
and the run produces no result. -/
theorem C3_counterexample :
    tblC3NoEnh.cols.hasEnhanced = false ∧
    runPipeline (fun _ => none) (fun _ _ => 0) ["Webster, NY"]
      ⟨"Unknown", "Yes", "No", "later", none⟩ tblC3NoEnh =
      .error .keyError := by decide

/-! ### Claim C9 -/

/-- C9 (amended): in the event trace of a run (client-location loop
followed by the per-community lookups), every two consecutive external
invocations are separated by a one-second blocking sleep, provided no
invocation raises; an invocation that raises skips its `time.sleep(1)`
(the sleep sits after the call inside the `try`), so the spacing is not
maintained across raising invocations — see the counterexample. -/
theorem C9_spacing (g : String → GeoRes) (locs : List String)
    (hasGeo : Bool) (rows : List Row) (hg : ∀ q, g q ≠ .raised) :
    wellSpaced (runTraceEv g locs hasGeo rows) = true := by
  have h1 := clientLoopEv_spaced g hg locs
  have h2 := runSp_flatten (rows.map fun r => (geocodeCommunityEv g hasGeo r).1)
    (fun tr htr => by
      rcases List.mem_map.mp htr with ⟨r, -, rfl⟩
      exact geocodeCommunityEv_spaced g hg hasGeo r)
  rw [wellSpaced, runTraceEv, runSp_append, h1]
  rw [Option.some_bind, h2]
  rfl

/-- A geocoder oracle that never raises, for the C9 witness. -/
def gQuiet : String → GeoRes := fun _ => .notFound

/-- Two sample rows for the C9 witness: one with a postal code (a lookup
happens), one without. -/
def rowsC9 : List Row :=
  [⟨0, none, none, none, none, .missing, none, none, none, some 14620⟩,
   ⟨1, none, none, none, none, .missing, none, none, none, none⟩]

/-- Witness for C9: with a non-raising oracle, the concrete run trace is
well spaced. -/
theorem C9_witness :
    wellSpaced (runTraceEv gQuiet ["Webster, NY", "Penfield, NY"] true
      rowsC9) = true :=
  C9_spacing gQuiet ["Webster, NY", "Penfield, NY"] true rowsC9
    (fun q => by rw [gQuiet]; exact fun h => GeoRes.noConfusion h)

/-- A geocoder oracle whose first query raises (e.g. a timeout). -/
def gRaiseC9 : String → GeoRes :=
  fun q => if q = "Webster, NY" then .raised else .notFound

/-- C9 counterexample: the claim says consecutive invocations are spaced
by one second "including when an invocation fails or raises"; but when the
first client-location lookup raises, the bare `except` skips the
`time.sleep(1)` and the second lookup follows immediately: the trace has
two adjacent calls with no sleep between them. -/
theorem C9_counterexample :
    (clientLoopEv gRaiseC9 ["Webster, NY", "Penfield, NY"]).1 =
      [Ev.call "Webster, NY", Ev.call "Penfield, NY", Ev.sleep1] ∧
    wellSpaced (clientLoopEv gRaiseC9 ["Webster, NY", "Penfield, NY"]).1 =
      false := by decide

/-! ### Claim C5 -/

/-- C5: the filter chain keeps a subset of the input rows (identified by
their original index) in their original order, hence no more rows than
the input, and running the chain again with the same preferences on its
own output returns the output unchanged. -/
theorem C5_filter_chain (p : Prefs) (t u : Table)
    (h : filterChain p t = .ok u) :
    (u.rows.map Row.idx).Sublist (t.rows.map Row.idx) ∧
    u.rows.length ≤ t.rows.length ∧
    filterChain p u = .ok u := by
  obtain ⟨-, hsub, hagain⟩ := filterChain_props h
  refine ⟨hsub, ?_, hagain⟩
  have hlen := hsub.length_le
  simpa using hlen

/-- Concrete input table for the C5 witness: three rows, of which only
the first survives the care-level and budget filters. -/
def tblC5 : Table :=
  ⟨⟨true, false, false, false, true, false, false, false, false⟩,
    [⟨0, some "Assisted Living Facility", none, none, none, .text "2500",
      none, none, none, none⟩,
     ⟨1, some "Memory Care", none, none, none, .num 1000,
      none, none, none, none⟩,
     ⟨2, some "assisted living", none, none, none, .text "call for pricing",
      none, none, none, none⟩]⟩

/-- Concrete preferences for the C5 witness. -/
def prefsC5 : Prefs := ⟨"Assisted Living", "No", "No", "later", some 3000⟩

/-- The filter-chain output on `tblC5`. -/
def tblC5out : Table :=
  ⟨⟨true, false, false, false, true, false, false, false, false⟩,
    [⟨0, some "Assisted Living Facility", none, none, none, .num 2500,
      none, none, none, none⟩]⟩

/-- Witness for C5 at a concrete run: the output's indices are a sublist
of the input's and rerunning the chain is the identity. -/
theorem C5_witness :
    filterChain prefsC5 tblC5 = .ok tblC5out ∧
    (tblC5out.rows.map Row.idx).Sublist (tblC5.rows.map Row.idx) ∧
    tblC5out.rows.length ≤ tblC5.rows.length ∧
    filterChain prefsC5 tblC5out = .ok tblC5out :=
  ⟨by decide, C5_filter_chain prefsC5 tblC5 tblC5out (by decide)⟩

/-! ### Claim C1 -/

/-- C1 (amended): the shortlist policy of line 299.  When no
`Distance_miles` column exists the shortlist is the first five rows of
the results table; when it exists the shortlist is `nsmallest`: at most 5
rows, all with a non-null distance, and every shortlisted row's distance
is ≤ the distance of every non-shortlisted row that has one — the
selection ranks by distance alone, ignoring `Priority_Level` (see the
counterexample against the spec's priority-first shortlist). -/
theorem C1_top5 (rs : List RRow) :
    top5F ⟨false, rs⟩ = rs.take 5 ∧
    (top5F ⟨true, rs⟩).length ≤ 5 ∧
    (∀ a ∈ top5F ⟨true, rs⟩, a.dist.isSome = true) ∧
    (∀ a ∈ top5F ⟨true, rs⟩, ∀ b ∈ rs, b.dist.isSome = true →
      ¬ b ∈ top5F ⟨true, rs⟩ → a.dist.getD 0 ≤ b.dist.getD 0) := by
  have hfalse : top5F ⟨false, rs⟩ = rs.take 5 := rfl
  have htrue : top5F ⟨true, rs⟩ =
      (ssort dLe (rs.filter fun r => r.dist.isSome)).take 5 := rfl
  refine ⟨hfalse, ?_, ?_, ?_⟩
  · rw [htrue, List.length_take]
    exact min_le_left _ _
  · intro a ha
    rw [htrue] at ha
    have hs := (ssort_perm dLe (rs.filter fun r => r.dist.isSome)).mem_iff.mp
      (List.mem_of_mem_take ha)
    exact (List.mem_filter.mp hs).2
  · intro a ha b hb hbs hnot
    rw [htrue] at ha hnot
    have hbfil : b ∈ rs.filter fun r => r.dist.isSome :=
      List.mem_filter.mpr ⟨hb, hbs⟩
    have hbsort : b ∈ ssort dLe (rs.filter fun r => r.dist.isSome) :=
      (ssort_perm dLe _).mem_iff.mpr hbfil
    have hsplit := List.take_append_drop 5
      (ssort dLe (rs.filter fun r => r.dist.isSome))
    rw [← hsplit] at hbsort
    rcases List.mem_append.mp hbsort with hcase | hcase
    · exact absurd hcase hnot
    · have hp := ssort_pairwise dLe dLe_total dLe_trans
        (rs.filter fun r => r.dist.isSome)
      have hle := sorted_take_drop hp ha hcase
      simpa [dLe] using hle

/-- External geocoder for the C1 counterexample run: the client location
resolves to the origin, community lookups are never needed. -/
def gC1 : String → Option Coord :=
  fun q => if q = "Webster, NY" then some (0, 0) else none

/-- A stand-in for the abstract geodesic-distance function in concrete
runs: it returns the community's latitude (kernel-reducible, and enough
to distinguish rows). -/
def geodProj : Coord → Coord → ℚ := fun a _ => a.1

/-- Community with no contract (priority 3) one unit away. -/
def rowC1A : Row :=
  ⟨0, none, none, none, none, .missing, some "no", some "no",
    some "1,0", none⟩

/-- Community with a contract (priority 1) two units away. -/
def rowC1B : Row :=
  ⟨1, none, none, none, none, .missing, some "Contracted @ 10%", none,
    some "2,0", none⟩

/-- Table for the C1 counterexample run. -/
def tblC1 : Table :=
  ⟨⟨false, false, false, false, false, true, true, true, true⟩,
    [rowC1A, rowC1B]⟩

/-- The processed results table of the C1 counterexample run. -/
def outC1 : Ranked := processStage gC1 geodProj ["Webster, NY"] tblC1

/-- C1 counterexample: the claim says the shortlist equals the first 5
records of the table fully sorted by (priority, distance) and that
distance never overrides priority; but with a `Distance_miles` column the
code takes `nsmallest(5, "Distance_miles")`: the priority-3 community at
distance 1 is listed before the priority-1 community at distance 2, the
reverse of the priority-first order. -/
theorem C1_counterexample :
    top5F outC1 ≠ specShortlist outC1 ∧
    (top5F outC1).map (fun rr => (rr.row.idx, rr.priority)) = [(0, 3), (1, 1)] ∧
    (specShortlist outC1).map (fun rr => (rr.row.idx, rr.priority)) =
      [(1, 1), (0, 3)] := by decide

/-- A results row with only a priority and a distance, for the C1
witness. -/
def rrK (i : Nat) (d : ℚ) : RRow :=
  ⟨⟨i, none, none, none, none, .missing, none, none, none, none⟩, 3, some d⟩

/-- Six results rows at increasing distances. -/
def rsC1 : List RRow :=
  [rrK 0 1, rrK 1 2, rrK 2 3, rrK 3 4, rrK 4 5, rrK 5 6]

/-- Witness for C1 at a concrete results list: the first row is in the
distance-shortlist, the sixth is not, and the theorem yields the
distance comparison. -/
theorem C1_witness :
    top5F ⟨false, rsC1⟩ = rsC1.take 5 ∧
    (rrK 0 1).dist.getD 0 ≤ (rrK 5 6).dist.getD 0 :=
  ⟨(C1_top5 rsC1).1,
    (C1_top5 rsC1).2.2.2 (rrK 0 1) (by decide) (rrK 5 6) (by decide)
      (by decide) (by decide)⟩

/-! ### Claim C7 -/

/-- The priority-annotated rows the processing stage builds
(`df["Priority_Level"] = df.apply(assign_priority, axis=1)`). -/
def mkRRows (t : Table) : List RRow :=
  t.rows.map fun r =>
    RRow.mk r (assign_priority t.cols.hasContract t.cols.hasPlacement r) none

/-- The distance annotation of one results row
(`df["Community_Coords"]` / `df["Distance_miles"]`). -/
def annot (g : String → Option Coord) (geod : Coord → Coord → ℚ)
    (locs : List String) (hasGeo : Bool) (rr : RRow) : RRow :=
  let d := compute_distance geod (resolveClient g locs)
    (geocode_community g hasGeo rr.row)
  { rr with dist := d }

theorem processStage_zip (g : String → Option Coord)
    (geod : Coord → Coord → ℚ) (locs : List String) (t : Table)
    (hz : t.cols.hasZip = true) :
    processStage g geod locs t =
      ⟨true, ssort keyLe
        ((ssort pLe (mkRRows t)).map (annot g geod locs t.cols.hasGeocode))⟩ := by
  rw [processStage, hz]
  rfl

/-- C7 (amended): with a postal-code column present, the processed table
carries a `Distance_miles` column; its rows are exactly the surviving
records (as a permutation); each row's distance is computed from the
coordinate resolved by preferring a parseable stored "Geocode" value (the
external geocoder is then irrelevant), falling back to geocoding the
zero-padded postal-code query, and is null when neither resolves; a
record with a null distance still appears in the ranked table, sorted
after every record *of its own priority tier* that has a distance —
though not after lower-priority records with a distance, since priority
is the primary sort key (see the counterexample). -/
theorem C7_geocode_ranking (g : String → Option Coord)
    (geod : Coord → Coord → ℚ) (locs : List String) (t : Table)
    (hz : t.cols.hasZip = true) :
    (processStage g geod locs t).hasDistance = true ∧
    ((processStage g geod locs t).rows.map RRow.row).Perm t.rows ∧
    (∀ rr ∈ (processStage g geod locs t).rows,
      rr.dist = compute_distance geod (resolveClient g locs)
        (geocode_community g t.cols.hasGeocode rr.row)) ∧
    (∀ (r : Row) (c : Coord),
      parseGeocode (if t.cols.hasGeocode then r.geocodeCell else none) =
        some c →
      ∀ g2 : String → Option Coord,
        geocode_community g2 t.cols.hasGeocode r = some c) ∧
    (∀ (r : Row) (z : Nat),
      parseGeocode (if t.cols.hasGeocode then r.geocodeCell else none) =
        none →
      r.zipCell = some z →
      geocode_community g t.cols.hasGeocode r = g (zipQuery z)) ∧
    (∀ r : Row,
      parseGeocode (if t.cols.hasGeocode then r.geocodeCell else none) =
        none →
      r.zipCell = none →
      compute_distance geod (resolveClient g locs)
        (geocode_community g t.cols.hasGeocode r) = none) ∧
    (∀ i j : Fin (processStage g geod locs t).rows.length,
      i.val < j.val →
      ((processStage g geod locs t).rows.get i).priority =
        ((processStage g geod locs t).rows.get j).priority →
      ((processStage g geod locs t).rows.get i).dist = none →
      ((processStage g geod locs t).rows.get j).dist = none) := by
  have hout := processStage_zip g geod locs t hz
  rw [hout]
  refine ⟨rfl, ?_, ?_, ?_, ?_, ?_, ?_⟩
  · -- the rows are a permutation of the filtered input rows
    have hmm : (((ssort pLe (mkRRows t)).map
        (annot g geod locs t.cols.hasGeocode)).map RRow.row) =
        ((ssort pLe (mkRRows t)).map RRow.row) := by
      rw [List.map_map]
      rfl
    have hid : ((mkRRows t).map RRow.row) = t.rows := by
      rw [mkRRows, List.map_map]
      exact List.map_id t.rows
    refine ((ssort_perm keyLe _).map RRow.row).trans ?_
    rw [hmm]
    refine ((ssort_perm pLe _).map RRow.row).trans ?_
    rw [hid]
  · -- each row is annotated with the distance its resolved coordinate gives
    intro rr hr
    have hw := (ssort_perm keyLe _).mem_iff.mp hr
    rcases List.mem_map.mp hw with ⟨rr0, -, rfl⟩
    rfl
  · -- a parseable stored geocode wins, whatever the external geocoder does
    intro r c hpg g2
    rw [geocode_community, hpg]
  · -- otherwise the padded postal-code query is sent to the geocoder
    intro r z hpg hzc
    rw [geocode_community, hpg, hzc]
  · -- no stored geocode and no postal code: null distance
    intro r hpg hzc
    rw [geocode_community, hpg, hzc]
    rfl
  · -- within one priority tier, null distances sort last
    intro i j hij hpr hnone
    have hp := ssort_pairwise keyLe keyLe_total keyLe_trans
      ((ssort pLe (mkRRows t)).map (annot g geod locs t.cols.hasGeocode))
    have hk := List.pairwise_iff_get.mp hp i j hij
    rw [keyLe, if_pos hpr, hnone] at hk
    cases hd : (((ssort keyLe ((ssort pLe (mkRRows t)).map
        (annot g geod locs t.cols.hasGeocode))).get j)).dist with
    | none => rfl
    | some q =>
      rw [hd] at hk
      simp [distLe] at hk

/-- External geocoder for the C7 concrete run. -/
def gC7 : String → Option Coord :=
  fun q => if q = "Webster, NY" then some (0, 0) else none

/-- Priority-1 community with neither a stored geocode nor a postal code:
its distance is null. -/
def rowC7A : Row :=
  ⟨0, none, none, none, none, .missing, some "Contracted @ 10%", none,
    none, none⟩

/-- Priority-3 community with a parseable stored geocode at distance 1. -/
def rowC7B : Row :=
  ⟨1, none, none, none, none, .missing, some "no", some "no",
    some "1,0", none⟩

/-- Table for the C7 concrete run. -/
def tblC7 : Table :=
  ⟨⟨false, false, false, false, false, true, true, true, true⟩,
    [rowC7A, rowC7B]⟩

/-- The processed results table of the C7 concrete run. -/
def outC7 : Ranked := processStage gC7 geodProj ["Webster, NY"] tblC7

/-- C7 counterexample: the claim says a record with no coordinate is
"sorted after all records with a distance"; but the sort key is
(priority, distance), so the priority-1 record with a null distance
appears *before* the priority-3 record with distance 1 in the final
ranked table. -/
theorem C7_counterexample :
    (outC7.rows.map fun rr => (rr.priority, rr.dist)) =
      [(1, none), (3, some 1)] := by decide

/-- Witness for C7: the amended theorem instantiated at the concrete run
(the postal-column hypothesis holds by computation). -/
theorem C7_witness :
    (processStage gC7 geodProj ["Webster, NY"] tblC7).hasDistance = true :=
  (C7_geocode_ranking gC7 geodProj ["Webster, NY"] tblC7 rfl).1

end SeniorMatch
